import Mathlib

/-!
Verification of the compiler middle-end passes of the repository:
constant-branch dead-code elimination (`RemoveDeadCode`), straight-line
function inlining (`CallOnlyChecker` / `InlineFunctions`), post-inline
normalization (`CleanupAST`), and the scope-aware usage analyzer
(`UnusedVariables`).  Every definition below is a direct functional
translation of the corresponding Python code in
`src/python/modify_nodes.py` and `src/python/visit_nodes.py`; mutation
is made explicit by state passing, and code paths on which the Python
would raise an exception are modelled with `Option` (`none` = crash).
-/

set_option maxRecDepth 8192

namespace MiniCompiler

/-- Literal values carried by `ast.Constant` / `ast.NameConstant` nodes. -/
inductive Lit where
  | int (n : Int)
  | bool (b : Bool)
  | noneLit
deriving DecidableEq, Repr

/-- Python truthiness of a literal, as used by `if node.test.value:`. -/
def Lit.truthy : Lit → Bool
  | .int n => n != 0
  | .bool b => b
  | .noneLit => false

/-- Expressions: the node kinds the passes inspect.  A call's callee is a
plain name (the source reads `node.func.id`); `strLit` is the `ast.Str`
string-literal (docstring) node, kept distinct from `const` because
`CallOnlyChecker` tests `type(value) in [ast.Str, ast.Call]` while
`RemoveDeadCode` tests `type(test) in [ast.Constant, ast.NameConstant]`. -/
inductive Expr where
  | name (id : String)
  | const (v : Lit)
  | strLit (s : String)
  | call (func : String) (args : List Expr)

/-- The payload of an expression statement (and of an assignment's value).
`many` is the transient, structurally invalid shape that appears when the
inliner assigns a list of nodes to a single-node field; `CleanupAST`
removes it. -/
inductive ExprVal where
  | one (e : Expr)
  | many (es : List Expr)

/-- Statements, mirroring the node kinds of the source's data model.
Line numbers are kept on the statements whose `lineno` the usage
analyzer reads. -/
inductive Stmt where
  | sExpr (value : ExprVal)
  | assign (target : Expr) (value : ExprVal) (line : Nat)
  | sIf (test : ExprVal) (body orelse : List Stmt)
  | funcDef (name : String) (params : List String) (body : List Stmt) (line : Nat)
  | globalDecl (names : List String) (line : Nat)
  | nonlocalDecl (names : List String) (line : Nat)

/-! ### Python `dict` as an association list (insertion order, overwrite on repeat key) -/

def dictLookup {α : Type} (m : List (String × α)) (k : String) : Option α :=
  match m with
  | [] => none
  | (k', v) :: r => if k' == k then some v else dictLookup r k

def dictInsert {α : Type} (m : List (String × α)) (k : String) (v : α) :
    List (String × α) :=
  match m with
  | [] => [(k, v)]
  | (k', v') :: r => if k' == k then (k, v) :: r else (k', v') :: dictInsert r k v

def dictRemove {α : Type} (m : List (String × α)) (k : String) : List (String × α) :=
  match m with
  | [] => []
  | (k', v') :: r => if k' == k then r else (k', v') :: dictRemove r k

theorem dictLookup_insert_self {α : Type} (m : List (String × α)) (k : String) (v : α) :
    dictLookup (dictInsert m k v) k = some v := by
  induction m with
  | nil => simp [dictInsert, dictLookup]
  | cons p r ih =>
    obtain ⟨k', v'⟩ := p
    by_cases h : k' == k
    · simp [dictInsert, dictLookup, h]
    · simp [dictInsert, dictLookup, h, ih]

theorem dictLookup_insert_ne {α : Type} (m : List (String × α)) (k k' : String) (v : α)
    (h : k ≠ k') : dictLookup (dictInsert m k v) k' = dictLookup m k' := by
  have hkk' : (k == k') = false := by simp [h]
  induction m with
  | nil => simp [dictInsert, dictLookup, hkk']
  | cons p r ih =>
    obtain ⟨k₀, v₀⟩ := p
    by_cases h₀ : (k₀ == k) = true
    · have hk₀ : k₀ = k := by simpa using h₀
      simp [dictInsert, dictLookup, h₀, hk₀, hkk']
    · simp [dictInsert, dictLookup, h₀, ih]

/-! ### `RemoveDeadCode` (`modify_nodes.py` lines 23-55)

`visit_If` first recurses into the branches (`generic_visit`), then, when
the test is a `Constant`/`NameConstant`, returns the (already pruned)
selected branch — `None` when that branch is empty, i.e. the node is
deleted; otherwise the list is spliced into the parent's statement list.
All other statement kinds are kept, their children pruned in place. -/

mutual

def pruneStmt : Stmt → List Stmt
  | .sIf (.one (.const v)) body orelse =>
    if v.truthy then pruneStmts body else pruneStmts orelse
  | .sIf t body orelse => [.sIf t (pruneStmts body) (pruneStmts orelse)]
  | .funcDef n ps body line => [.funcDef n ps (pruneStmts body) line]
  | .sExpr v => [.sExpr v]
  | .assign t v l => [.assign t v l]
  | .globalDecl ns l => [.globalDecl ns l]
  | .nonlocalDecl ns l => [.nonlocalDecl ns l]

def pruneStmts : List Stmt → List Stmt
  | [] => []
  | s :: rest => pruneStmt s ++ pruneStmts rest

end

/-- `RemoveDeadCode().optimize(tree)` on a module body. -/
def prune (m : List Stmt) : List Stmt := pruneStmts m

theorem pruneStmts_append (a b : List Stmt) :
    pruneStmts (a ++ b) = pruneStmts a ++ pruneStmts b := by
  induction a with
  | nil => simp [pruneStmts]
  | cons s rest ih => simp [pruneStmts, ih]

/-! ### `CallOnlyChecker` (`modify_nodes.py` lines 58-111)

`visit_FunctionDef` walks the function's direct children: the
`arguments` node is skipped, an `Expr` statement whose value is an
`ast.Str` or an `ast.Call` is accepted, anything else marks the function
not inlinable and stops.  A qualified function is cached: its
`arguments` and, with a leading docstring stripped, the `value` of each
remaining body statement.  The cached body in the source is a lazy
`map` object — it can be iterated only once; `consumed` records whether
it has been exhausted. -/

/-- One cached function: `{'args': ..., 'body': map(...)}`.  The cached
body is a lazy, single-use `map` over the `value` objects of the
function definition's own body statements (`get_cached_function` is a
shallow `copy.copy`, so the same objects are shared): `body` holds the
current contents of those aliased call nodes — the inliner's in-place
argument substitution updates them — and `consumed` records whether the
single-use `map` object has been exhausted. -/
structure FuncRec where
  args : List String
  body : List Expr
  consumed : Bool

/-- State of the analyzer: `__inlineable_cache__` (a `defaultdict`
returning `False`) and `__function_cache__`. -/
structure Checker where
  inlineable : List (String × Bool)
  fcache : List (String × FuncRec)

def initChecker : Checker := ⟨[], []⟩

/-- `can_inline` (line 71): `defaultdict` read, default `False`. -/
def canInline (c : Checker) (n : String) : Bool :=
  (dictLookup c.inlineable n).getD false

/-- The per-child test of the `visit_FunctionDef` loop (line 96):
`isinstance(func_node, ast.Expr) and type(func_node.value) in [ast.Str, ast.Call]`. -/
def isDocOrCallStmt : Stmt → Bool
  | .sExpr (.one (.strLit _)) => true
  | .sExpr (.one (.call _ _)) => true
  | _ => false

/-- The loop of `visit_FunctionDef` over the function's children
(the `arguments` child is always skipped, so only body statements can
disqualify). -/
def bodyAllCalls : List Stmt → Bool
  | [] => true
  | s :: rest => if isDocOrCallStmt s then bodyAllCalls rest else false

/-- `x.value` of a body statement of a qualified function (line 110).
A qualified body consists of `sExpr (.one _)` statements only, so the
fallback arm is unreachable there. -/
def stmtValue : Stmt → Expr
  | .sExpr (.one e) => e
  | _ => .name ""

/-- Docstring stripping (lines 105-109): drop `body[0]` when it is an
`Expr` statement holding an `ast.Str`. -/
def stripDocstring : List Stmt → List Stmt
  | .sExpr (.one (.strLit _)) :: rest => rest
  | body => body

/-- `CallOnlyChecker.visit_FunctionDef` (lines 89-111). -/
def visit_FunctionDef (c : Checker) (name : String) (params : List String)
    (body : List Stmt) : Checker :=
  if bodyAllCalls body then
    { inlineable := dictInsert c.inlineable name true
      fcache := dictInsert c.fcache name
        ⟨params, (stripDocstring body).map stmtValue, false⟩ }
  else
    { c with inlineable := dictInsert c.inlineable name false }

/-! The checker's traversal (`NodeVisitor`): `visit_FunctionDef` does not
recurse, every other statement is generically visited.  Expressions
cannot contain function definitions, so visiting them has no effect. -/

mutual

def anStmt (c : Checker) : Stmt → Checker
  | .funcDef name params body _ => visit_FunctionDef c name params body
  | .sIf _ body orelse =>
    let c₁ := anStmts c body
    anStmts c₁ orelse
  | _ => c
termination_by structural s => s

def anStmts (c : Checker) : List Stmt → Checker
  | [] => c
  | s :: rest => anStmts (anStmt c s) rest
termination_by structural l => l

end

/-! ### `InlineFunctions` (`modify_nodes.py` lines 114-170)

`visit_Call` first generically visits the call (rewriting its argument
list, splicing any multi-node replacement), then, when the callee is
inlinable, builds the positional substitution table (an out-of-range
parameter index raises `IndexError` — modelled as `none`), iterates the
cached body (empty when the `map` object was already exhausted),
replaces matching `Name` arguments, and returns either the single
rewritten call or the whole list.  Marking `consumed` models the
exhaustion of the cached `map` object. -/

/-- Result of visiting one expression node with the transformer: the
rewrite may return a single node or a list of nodes. -/
inductive InlRes where
  | single (e : Expr)
  | multi (es : List Expr)

/-- Build `replacement_table` (lines 144-149): positional pairing of the
cached parameter names with the caller's arguments;
`replacement_args.args[index]` out of range is an `IndexError`. -/
def buildTable (params : List String) : List Expr → Nat → List (String × Expr) →
    Option (List (String × Expr))
  | [], _, acc => some acc
  | a :: rest, i, acc =>
    match params[i]? with
    | some p => buildTable params rest (i + 1) (dictInsert acc p a)
    | none => none

/-- Rewrite one cached call's argument list (lines 151-159): a `Name`
argument found in the table is replaced, everything else passes through. -/
def substArgs (table : List (String × Expr)) : List Expr → List Expr
  | [] => []
  | a :: rest =>
    (match a with
     | .name i =>
       match dictLookup table i with
       | some e => e
       | none => a
     | _ => a) :: substArgs table rest

/-- The loop over the cached body (lines 150-161): each cached statement
must be a call (`call.args` on anything else is an `AttributeError`);
its argument list is rewritten through the table.  In the source this is
an in-place mutation of the cached node itself (`call.args = new_args`,
line 160): the returned list is both the replacement spliced at the call
site and the new contents of the shared cached/definition-body nodes, so
`inlineCall` stores it back into the cache entry. -/
def rewriteCached (table : List (String × Expr)) : List Expr → Option (List Expr)
  | [] => some []
  | .call g cargs :: rest => do
    let rs ← rewriteCached table rest
    pure (.call g (substArgs table cargs) :: rs)
  | _ :: _ => none

/-- The inlining decision of `visit_Call` (lines 140-170), after the
generic visit has already rewritten `args`.  Reading the cached body
exhausts the stored `map` object, so the cache entry is marked
`consumed`; the substitution mutates the cached nodes in place
(`call.args = new_args`, line 160), so on first consumption the cache
entry's `body` becomes the substituted calls — the contents that the
aliased function definition body now shows (realized in the output tree
by `writebackStmts`).  A later consumption iterates the exhausted `map`
(no calls, no further mutation). -/
def inlineCall (c : Checker) (f : String) (args : List Expr) :
    Option (Checker × InlRes) :=
  if canInline c f then
    let fr := (dictLookup c.fcache f).getD ⟨[], [], false⟩
    match buildTable fr.args args 0 [] with
    | none => none
    | some table =>
      let bodyCalls := if fr.consumed then [] else fr.body
      match rewriteCached table bodyCalls with
      | none => none
      | some replacement =>
        let c' : Checker :=
          { c with
            fcache := dictInsert c.fcache f
              { fr with
                body := if fr.consumed then fr.body else replacement
                consumed := true } }
        match replacement with
        | [e] => some (c', .single e)
        | es => some (c', .multi es)
  else
    some (c, .single (.call f args))

mutual

/-- Transformer dispatch on an expression: `Call` goes to `visit_Call`,
other expression kinds have no visitor and no rewritable children. -/
def inlExpr (c : Checker) : Expr → Option (Checker × InlRes)
  | .call f args => do
    let (c₁, args') ← inlArgs c args
    inlineCall c₁ f args'
  | e => some (c, .single e)
termination_by structural e => e

/-- Generic visit of an expression list field: a multi-node result is
spliced into the list, mirroring `NodeTransformer.generic_visit`. -/
def inlArgs (c : Checker) : List Expr → Option (Checker × List Expr)
  | [] => some (c, [])
  | a :: rest => do
    let (c₁, r) ← inlExpr c a
    let (c₂, rs) ← inlArgs c₁ rest
    match r with
    | .single e => pure (c₂, e :: rs)
    | .multi es => pure (c₂, es ++ rs)
termination_by structural l => l

/-- Visit of an `ExprStmt`/`Assign` value field.  A single-node field
receiving a multi-node result is stored as the (invalid) list value —
exactly what `NodeTransformer` does when assigning a list to `value`. -/
def inlVal (c : Checker) : ExprVal → Option (Checker × ExprVal)
  | .one e => do
    let (c₁, r) ← inlExpr c e
    match r with
    | .single e' => pure (c₁, .one e')
    | .multi es => pure (c₁, .many es)
  | .many es => do
    let (c₁, es') ← inlArgs c es
    pure (c₁, .many es')

/-- Transformer dispatch on a statement (all statements are generically
visited; only the `Call` expressions inside them are rewritten).  An
assignment target rewritten into a node list has no representation (the
source would store a malformed node); it cannot arise from well-formed
input. -/
def inlStmt (c : Checker) : Stmt → Option (Checker × Stmt)
  | .sExpr v => do
    let (c₁, v') ← inlVal c v
    pure (c₁, .sExpr v')
  | .assign t v line => do
    let (c₁, rt) ← inlExpr c t
    match rt with
    | .multi _ => none
    | .single t' => do
      let (c₂, v') ← inlVal c₁ v
      pure (c₂, .assign t' v' line)
  | .sIf t body orelse => do
    let (c₁, t') ← inlVal c t
    let (c₂, body') ← inlStmts c₁ body
    let (c₃, orelse') ← inlStmts c₂ orelse
    pure (c₃, .sIf t' body' orelse')
  | .funcDef name params body line => do
    let (c₁, body') ← inlStmts c body
    pure (c₁, .funcDef name params body' line)
  | .globalDecl ns line => some (c, .globalDecl ns line)
  | .nonlocalDecl ns line => some (c, .nonlocalDecl ns line)
termination_by structural s => s

def inlStmts (c : Checker) : List Stmt → Option (Checker × List Stmt)
  | [] => some (c, [])
  | s :: rest => do
    let (c₁, s') ← inlStmt c s
    let (c₂, rest') ← inlStmts c₁ rest
    pure (c₂, s' :: rest')
termination_by structural l => l

end

/-! ### `CleanupAST` (`modify_nodes.py` lines 173-244) -/

/-- The splitting branch of `cleanBody` (lines 189-194).  Note the
source appends `ast.Expr(value=child_node.value[0])` — element 0 — for
every element of the list. -/
def splitExprStmt : List Expr → List Stmt
  | [v] => [.sExpr (.one v)]
  | [] => []
  | v₀ :: v₁ :: rest => (v₀ :: v₁ :: rest).map fun _ => Stmt.sExpr (.one v₀)

/-- `CleanupAST.cleanBody` (lines 179-197). -/
def cleanBody : List Stmt → List Stmt
  | [] => []
  | .sExpr (.many vs) :: rest => splitExprStmt vs ++ cleanBody rest
  | s :: rest => s :: cleanBody rest

mutual

/-- `visit_Module` / `visit_FunctionDef` / `visit_If`: generic visit of
the children first, then `cleanBody` on each statement list field. -/
def cleanStmt : Stmt → Stmt
  | .funcDef n ps body line => .funcDef n ps (cleanBody (cleanStmts body)) line
  | .sIf t body orelse => .sIf t (cleanBody (cleanStmts body)) (cleanBody (cleanStmts orelse))
  | s => s

def cleanStmts : List Stmt → List Stmt
  | [] => []
  | s :: rest => cleanStmt s :: cleanStmts rest

end

/-- `CleanupAST().cleanup(tree)` on a module body. -/
def cleanup (m : List Stmt) : List Stmt := cleanBody (cleanStmts m)

/-- `normalize` entry point of the spec — the cleanup pass. -/
def normalize (m : List Stmt) : List Stmt := cleanup m

/-! The cached call nodes are the `value` objects of the cached
function's own body statements, so the in-place substitution of
`visit_Call` (line 160) also rewrites that function's definition in the
tree: after the pass, a definition whose cache entry was consumed shows
the arguments substituted at the first inlined call site.  `writeback`
realizes this aliasing in the functional model: it traverses exactly the
statements the checker analyzed (module body and `If` branches, never
inside nested functions, which are never cached) and replaces the body
of each consumed cached function with the cache entry's final, mutated
contents.  An unconsumed entry was never mutated, so its definition is
left as the inliner produced it. -/

/-- Replace the call statements' `value`s positionally with the cached
(substituted) call nodes; a cached body statement is always
`sExpr (.one _)`. -/
def writebackCalls : List Stmt → List Expr → List Stmt
  | rest, [] => rest
  | [], _ => []
  | _ :: rest, v :: vs => .sExpr (.one v) :: writebackCalls rest vs

/-- A leading docstring statement is not part of the cached body
(`stripDocstring`) and keeps its own value. -/
def writebackBody (vals : List Expr) : List Stmt → List Stmt
  | .sExpr (.one (.strLit s)) :: rest =>
    .sExpr (.one (.strLit s)) :: writebackCalls rest vals
  | body => writebackCalls body vals

mutual

def writebackStmt (c : Checker) : Stmt → Stmt
  | .funcDef n ps body line =>
    let fr := (dictLookup c.fcache n).getD ⟨[], [], false⟩
    if canInline c n && fr.consumed then
      .funcDef n ps (writebackBody fr.body body) line
    else
      .funcDef n ps body line
  | .sIf t b o => .sIf t (writebackStmts c b) (writebackStmts c o)
  | s => s
termination_by structural s => s

def writebackStmts (c : Checker) : List Stmt → List Stmt
  | [] => []
  | s :: rest => writebackStmt c s :: writebackStmts c rest
termination_by structural l => l

end

/-- `InlineFunctions.optimize` (lines 121-133): analyze, inline (with
the aliased definition bodies reflecting the in-place substitutions),
clean up. -/
def inlineOptimize (m : List Stmt) : Option (List Stmt) := do
  let c := anStmts initChecker m
  let (cFinal, m') ← inlStmts c m
  pure (cleanup (writebackStmts cFinal m'))

/-! ### `UnusedVariables` (`visit_nodes.py` lines 44-149)

State: `variable_def` maps a function name to its three scope lists of
`(var, function, line)` triples, `variable_used` maps a function name to
the set of names marked used there, `stack` is the scope stack (pushed
on entering a `FunctionDef`), `function_name` the current scope, and
`out` the diagnostics written to stdout, in order. -/

/-- A diagnostic message written by the analyzer. -/
inductive Diag where
  | unused (name scope : String) (line : Nat)
  | undefinedUse (scope name : String)
deriving DecidableEq, Repr

/-- The three scope-kind keys of a `variable_def` entry. -/
inductive ScopeKind where
  | glob
  | nonloc
  | loc
deriving DecidableEq, Repr

/-- One `variable_def[fn]` entry: `{'global': [...], 'nonlocal': [...],
'local': [...]}` of `(var_name, function, line)` triples. -/
structure ScopeDef where
  globals : List (String × String × Nat)
  nonlocals : List (String × String × Nat)
  locals : List (String × String × Nat)

def emptyScopeDef : ScopeDef := ⟨[], [], []⟩

def ScopeDef.get (d : ScopeDef) : ScopeKind → List (String × String × Nat)
  | .glob => d.globals
  | .nonloc => d.nonlocals
  | .loc => d.locals

def ScopeDef.set (d : ScopeDef) : ScopeKind → List (String × String × Nat) → ScopeDef
  | .glob, l => { d with globals := l }
  | .nonloc, l => { d with nonlocals := l }
  | .loc, l => { d with locals := l }

/-- The analyzer's whole mutable state. -/
structure UState where
  vdef : List (String × ScopeDef)
  vused : List (String × List String)
  stack : List String
  fname : String
  out : List Diag

/-- `__init__` (lines 49-56). -/
def initUState : UState :=
  { vdef := [("global", emptyScopeDef)]
    vused := [("global", [])]
    stack := ["global"]
    fname := "global"
    out := [] }

/-- `var_defined` (lines 112-115): `var_name in [x[0] for x in
self.variable_def[function][scope]]`. -/
def varDefined (st : UState) (k : ScopeKind) (v : String) (fn : String) : Bool :=
  (((dictLookup st.vdef fn).getD emptyScopeDef).get k).any fun t => t.1 == v

/-- `var_name in self.variable_used[function]`. -/
def isUsed (st : UState) (fn : String) (v : String) : Bool :=
  ((dictLookup st.vused fn).getD []).contains v

/-- `self.variable_used[function][var_name] = True`. -/
def markUsed (st : UState) (fn : String) (v : String) : UState :=
  { st with vused := dictInsert st.vused fn (v :: (dictLookup st.vused fn).getD []) }

/-- `register_variable` (lines 83-88): append `(var, function, line)` to
the scope list of the current function unless the name is already there
(the first-definition line is kept). -/
def register_variable (st : UState) (k : ScopeKind) (v : String) (line : Nat) : UState :=
  let d := (dictLookup st.vdef st.fname).getD emptyScopeDef
  if (d.get k).any (fun t => t.1 == v) then st
  else { st with vdef := dictInsert st.vdef st.fname (d.set k ((d.get k) ++ [(v, st.fname, line)])) }

/-- The `for function in reversed(self.stack)` loop of `register_usage`
(lines 126-143), over the reversed stack.  `none` means the loop fell
off the end without resolving. -/
def resolveStack (st : UState) (v : String) : List String → Option UState
  | [] => none
  | fn :: rest =>
    if varDefined st .glob v fn && !(isUsed st "global" v) then
      some (markUsed st "global" v)
    else if varDefined st .nonloc v fn then
      resolveStack st v rest
    else if varDefined st .loc v fn && !(isUsed st fn v) then
      some (markUsed st fn v)
    else
      resolveStack st v rest

/-- `register_usage` (lines 117-146).  Note the source's `return`
statements sit inside the `not already used` checks: a name that is
defined but already marked used falls through, and when the stack loop
also falls through, the used-without-being-defined message is written. -/
def register_usage (st : UState) (v : String) : UState :=
  if varDefined st .glob v st.fname && !(isUsed st "global" v) then
    markUsed st "global" v
  else
    match resolveStack st v st.stack.reverse with
    | some st' => st'
    | none => { st with out := st.out ++ [.undefinedUse st.fname v] }

/-- The unused-variable report of `visit_FunctionDef` exit / `check`
(lines 60-62 and 74-76): one message per `local` triple whose name was
never marked used, in registration order. -/
def unusedDiags (st : UState) (fn : String) : List Diag :=
  (((dictLookup st.vdef fn).getD emptyScopeDef).locals.filter
      fun t => !((dictLookup st.vused fn).getD []).contains t.1).map
    fun t => .unused t.1 fn t.2.2

/-- Dispatch on an expression node: `visit_Name` registers a usage,
`visit_Call` registers only the arguments that are directly `Name`
nodes (lines 106-110) and does not recurse; other expressions have no
visitor and no children that register anything. -/
def uVisitExpr (st : UState) : Expr → UState
  | .name id => register_usage st id
  | .call _ args =>
    args.foldl
      (fun s a =>
        match a with
        | .name id => register_usage s id
        | _ => s)
      st
  | _ => st

/-- `generic_visit` applied to an expression node (as `visit_Assign`
does to `node.value`): each child node is dispatched.  A call's
children are its callee `Name` and its arguments. -/
def uVisitExprChildren (st : UState) : Expr → UState
  | .call f args => args.foldl uVisitExpr (register_usage st f)
  | _ => st

mutual

/-- `NodeVisitor` dispatch on one statement (lines 64-110 and 148-149).
`visit_FunctionDef` pushes a fresh frame, registers the parameters as
locals at the definition's line, recurses, reports the frame's unused
locals, and pops.  `visit_Assign` registers a simple `Name` target and
generically visits the value's children.  Statements without a visitor
are generically visited. -/
def uVisitStmt (st : UState) : Stmt → UState
  | .funcDef name params body line =>
    let st₁ : UState :=
      { st with
        fname := name
        stack := st.stack ++ [name]
        vused := dictInsert st.vused name []
        vdef := dictInsert st.vdef name
          { emptyScopeDef with locals := params.map fun p => (p, name, line) } }
    let st₂ := uVisitStmts st₁ body
    let st₃ := { st₂ with out := st₂.out ++ unusedDiags st₂ name }
    let newStack := st₃.stack.dropLast
    { st₃ with
      vused := dictRemove st₃.vused name
      vdef := dictRemove st₃.vdef name
      stack := newStack
      fname := (newStack.getLast?).getD "global" }
  | .globalDecl names line =>
    names.foldl (fun s n => register_variable s .glob n line) st
  | .nonlocalDecl names line =>
    names.foldl (fun s n => register_variable s .nonloc n line) st
  | .assign target value line =>
    let st₁ :=
      match target with
      | .name id => register_variable st .loc id line
      | _ => st
    match value with
    | .one e => uVisitExprChildren st₁ e
    | .many _ => st₁
  | .sExpr v =>
    match v with
    | .one e => uVisitExpr st e
    | .many es => es.foldl uVisitExpr st
  | .sIf t body orelse =>
    let st₁ :=
      match t with
      | .one e => uVisitExpr st e
      | .many es => es.foldl uVisitExpr st
    uVisitStmts (uVisitStmts st₁ body) orelse

def uVisitStmts (st : UState) : List Stmt → UState
  | [] => st
  | s :: rest => uVisitStmts (uVisitStmt st s) rest

end

/-- `UnusedVariables().check(tree)` (lines 58-62): generic visit of the
module, then the unused report for the global scope. -/
def analyzeUsage (m : List Stmt) : List Diag :=
  let st := uVisitStmts initUState m
  st.out ++ unusedDiags st "global"

/-! ## Helper lemmas -/

mutual

theorem pruneStmt_idem (s : Stmt) : pruneStmts (pruneStmt s) = pruneStmt s := by
  cases s with
  | sIf t body orelse =>
    cases t with
    | one e =>
      cases e with
      | const v =>
        simp only [pruneStmt]
        by_cases h : v.truthy
        · simp [h, pruneStmts_idem body]
        · simp [h, pruneStmts_idem orelse]
      | name id =>
        simp [pruneStmt, pruneStmts, pruneStmts_idem body, pruneStmts_idem orelse]
      | strLit s =>
        simp [pruneStmt, pruneStmts, pruneStmts_idem body, pruneStmts_idem orelse]
      | call f args =>
        simp [pruneStmt, pruneStmts, pruneStmts_idem body, pruneStmts_idem orelse]
    | many es =>
      simp [pruneStmt, pruneStmts, pruneStmts_idem body, pruneStmts_idem orelse]
  | funcDef n ps body line =>
    simp [pruneStmt, pruneStmts, pruneStmts_idem body]
  | sExpr v => simp [pruneStmt, pruneStmts]
  | assign t v l => simp [pruneStmt, pruneStmts]
  | globalDecl ns l => simp [pruneStmt, pruneStmts]
  | nonlocalDecl ns l => simp [pruneStmt, pruneStmts]
termination_by structural s

theorem pruneStmts_idem (l : List Stmt) : pruneStmts (pruneStmts l) = pruneStmts l := by
  cases l with
  | nil => simp [pruneStmts]
  | cons s rest =>
    simp [pruneStmts, pruneStmts_append, pruneStmt_idem s, pruneStmts_idem rest]
termination_by structural l

end

theorem bodyAllCalls_iff (l : List Stmt) :
    bodyAllCalls l = true ↔ ∀ s ∈ l, isDocOrCallStmt s = true := by
  induction l with
  | nil => simp [bodyAllCalls]
  | cons s rest ih =>
    by_cases h : isDocOrCallStmt s
    · simp [bodyAllCalls, h, ih]
    · simp [bodyAllCalls, h]

/-! ## Claims -/

/-- Claim C1: for `def f(x): g(x)` with `g` not inlinable and a call
`f(5)` inside `main`, running `inline` after `analyzeInlinable` replaces
the call with `g(5)` exactly: the single cached call statement becomes a
single rewritten call expression in the call's position; and argument
substitution replaces precisely those `Name` arguments whose id is a key
of the substitution table, passing every other argument through
unchanged. -/
theorem C1_inline_single_call :
    (∀ (v : Lit) (l₁ l₂ : Nat),
      (inlineOptimize
        [.funcDef "f" ["x"] [.sExpr (.one (.call "g" [.name "x"]))] l₁,
         .funcDef "main" [] [.sExpr (.one (.call "f" [.const v]))] l₂]).bind
          (fun m => m[1]?)
      = some (.funcDef "main" [] [.sExpr (.one (.call "g" [.const v]))] l₂))
    ∧ (∀ (table : List (String × Expr)) (args : List Expr),
        substArgs table args = args.map fun a =>
          match a with
          | .name i =>
            match dictLookup table i with
            | some e => e
            | none => a
          | _ => a) := by
  constructor
  · intro v l₁ l₂
    rfl
  · intro table args
    induction args with
    | nil => simp [substArgs]
    | cons a rest ih => simp [substArgs, ih]

/-- Claim C2: `prune` replaces an `If` with constant test anywhere in a
parent statement list by exactly the statements of the (recursively
pruned) selected branch, spliced in order — an empty selected branch
deletes the node; an `If` with a non-constant test and every other
statement kind are kept as nodes, with only their children pruned. -/
theorem C2_prune_constant_branches :
    (∀ (v : Lit) (body orelse pre post : List Stmt),
      prune (pre ++ .sIf (.one (.const v)) body orelse :: post)
        = prune pre ++ (if v.truthy then prune body else prune orelse) ++ prune post)
    ∧ (∀ (id : String) (body orelse : List Stmt),
        pruneStmt (.sIf (.one (.name id)) body orelse)
          = [.sIf (.one (.name id)) (prune body) (prune orelse)])
    ∧ (∀ (f : String) (args : List Expr) (body orelse : List Stmt),
        pruneStmt (.sIf (.one (.call f args)) body orelse)
          = [.sIf (.one (.call f args)) (prune body) (prune orelse)])
    ∧ (∀ v, pruneStmt (.sExpr v) = [.sExpr v])
    ∧ (∀ t v l, pruneStmt (.assign t v l) = [.assign t v l])
    ∧ (∀ ns l, pruneStmt (.globalDecl ns l) = [.globalDecl ns l])
    ∧ (∀ ns l, pruneStmt (.nonlocalDecl ns l) = [.nonlocalDecl ns l])
    ∧ (∀ n ps body l, pruneStmt (.funcDef n ps body l) = [.funcDef n ps (prune body) l]) := by
  refine ⟨?_, ?_, ?_, ?_, ?_, ?_, ?_, ?_⟩ <;>
    intros <;>
    simp [prune, pruneStmts_append, pruneStmts, pruneStmt]

/-- Claim C9: pruning is idempotent on every tree. -/
theorem C9_prune_idempotent (m : List Stmt) : prune (prune m) = prune m :=
  pruneStmts_idem m

/-- Claim C3 (refuted — code bug): inlining the same inlinable function
at two call sites produces neither independent copies nor the full
expansion at each site, and it mutates the original definition.  The
cache stores a single-use `map` iterator over the value nodes of `f`'s
own body statements, and the substitution (`call.args = new_args`)
mutates those shared nodes in place: the first call site `f(1)`
consumes the iterator and rewrites both the site and `f`'s definition
body to `g(1)`; at the second site `f(2)` the cached body iterates as
empty, the `Call` is replaced by an empty list, and normalization then
deletes the statement entirely. -/
theorem C3_second_call_site_lost :
    inlineOptimize
      [.funcDef "f" ["x"] [.sExpr (.one (.call "g" [.name "x"]))] 1,
       .sExpr (.one (.call "f" [.const (.int 1)])),
       .sExpr (.one (.call "f" [.const (.int 2)]))]
    = some
      [.funcDef "f" ["x"] [.sExpr (.one (.call "g" [.const (.int 1)]))] 1,
       .sExpr (.one (.call "g" [.const (.int 1)]))]
    ∧ inlineOptimize
      [.funcDef "f" ["x"] [.sExpr (.one (.call "g" [.name "x"]))] 1,
       .sExpr (.one (.call "f" [.const (.int 1)])),
       .sExpr (.one (.call "f" [.const (.int 2)]))]
    ≠ some
      [.funcDef "f" ["x"] [.sExpr (.one (.call "g" [.name "x"]))] 1,
       .sExpr (.one (.call "g" [.const (.int 1)])),
       .sExpr (.one (.call "g" [.const (.int 2)]))] := by
  have h :
      inlineOptimize
        [.funcDef "f" ["x"] [.sExpr (.one (.call "g" [.name "x"]))] 1,
         .sExpr (.one (.call "f" [.const (.int 1)])),
         .sExpr (.one (.call "f" [.const (.int 2)]))]
      = some
        [.funcDef "f" ["x"] [.sExpr (.one (.call "g" [.const (.int 1)]))] 1,
         .sExpr (.one (.call "g" [.const (.int 1)]))] := rfl
  refine ⟨h, ?_⟩
  rw [h]
  intro hcontra
  simpa using congrArg (fun o => (o.getD []).length) hcontra

/-- Claim C4 (refuted — code bug): `normalize` on an `ExprStmt` holding
a sequence of two expressions does not preserve the elements: for every
pair, the splitting loop appends `ast.Expr(value=child_node.value[0])`
for each element, so the result is two copies of the FIRST element —
in particular not one `ExprStmt` per element in order. -/
theorem C4_normalize_duplicates_first :
    (∀ a b : Expr,
      normalize [.sExpr (.many [a, b])] = [.sExpr (.one a), .sExpr (.one a)])
    ∧ normalize [.sExpr (.many [.name "a", .name "b"])]
      ≠ [.sExpr (.one (.name "a")), .sExpr (.one (.name "b"))] := by
  constructor
  · intro a b
    rfl
  · have h : normalize [.sExpr (.many [.name "a", .name "b"])]
        = [.sExpr (.one (.name "a")), .sExpr (.one (.name "a"))] := rfl
    rw [h]
    intro hcontra
    have h2 := List.cons.inj hcontra
    have h3 := List.cons.inj h2.2
    have h4 := Stmt.sExpr.inj h3.1
    have h5 := ExprVal.one.inj h4
    have h6 := Expr.name.inj h5
    simp at h6

/-- Claim C5 (refuted — code bug): a call to an inlinable function with
more arguments than cached parameters is NOT left un-inlined; the
positional pairing indexes past the end of the parameter list, an
`IndexError` in the source, modelled here as the whole pass returning
`none`. -/
theorem C5_arity_mismatch_panics :
    inlineOptimize
      [.funcDef "f" ["x"] [.sExpr (.one (.call "g" [.name "x"]))] 1,
       .sExpr (.one (.call "f" [.const (.int 1), .const (.int 2)]))]
    = none := rfl

/-- Claim C6 (refuted — code bug): a second use of a name that resolves
to the global scope is NOT silently resolved.  In `register_usage` the
`return` sits inside the `not already used` check, so on the second use
of `x` (a local of the global scope) the resolution loop falls through
and the analyzer emits a used-without-being-defined diagnostic for a
perfectly defined variable. -/
theorem C6_second_use_emits_undefined :
    analyzeUsage
      [.assign (.name "x") (.one (.const (.int 1))) 1,
       .sExpr (.one (.call "f" [.name "x"])),
       .sExpr (.one (.call "f" [.name "x"]))]
    = [.undefinedUse "global" "x"] := rfl

/-- Claim C7: a `FunctionDef` is marked inlinable iff every body
statement is a docstring expression or an expression statement holding a
call — the parameter list never disqualifies — and a qualified
function's cache entry holds its parameter names in order together with
the values of its call statements, a leading docstring stripped.  The
hypothesis `body ≠ []` marks the boundary of the model: on an empty
body (impossible for parsed source) the Python indexes `node.body[0]`
and crashes. -/
theorem C7_inlinable_iff (c : Checker) (name : String) (params : List String)
    (body : List Stmt) (_hbody : body ≠ []) :
    (canInline (visit_FunctionDef c name params body) name = true
      ↔ ∀ s ∈ body, isDocOrCallStmt s = true)
    ∧ (canInline (visit_FunctionDef c name params body) name = true →
        dictLookup (visit_FunctionDef c name params body).fcache name
          = some ⟨params, (stripDocstring body).map stmtValue, false⟩) := by
  constructor
  · rw [← bodyAllCalls_iff]
    by_cases hq : bodyAllCalls body = true
    · simp [visit_FunctionDef, hq, canInline, dictLookup_insert_self]
    · simp [visit_FunctionDef, hq, canInline, dictLookup_insert_self]
  · intro hci
    by_cases hq : bodyAllCalls body = true
    · simp [visit_FunctionDef, hq, dictLookup_insert_self]
    · exfalso
      simp [visit_FunctionDef, hq, canInline, dictLookup_insert_self] at hci

/-- Witness for C7 at `def f(x): g(x)`. -/
theorem C7_inlinable_iff_witness :
    (canInline (visit_FunctionDef initChecker "f" ["x"]
        [.sExpr (.one (.call "g" [.name "x"]))]) "f" = true
      ↔ ∀ s ∈ [Stmt.sExpr (.one (.call "g" [.name "x"]))], isDocOrCallStmt s = true)
    ∧ (canInline (visit_FunctionDef initChecker "f" ["x"]
        [.sExpr (.one (.call "g" [.name "x"]))]) "f" = true →
        dictLookup (visit_FunctionDef initChecker "f" ["x"]
          [.sExpr (.one (.call "g" [.name "x"]))]).fcache "f"
          = some ⟨["x"],
              (stripDocstring [.sExpr (.one (.call "g" [.name "x"]))]).map stmtValue,
              false⟩) :=
  C7_inlinable_iff initChecker "f" ["x"] [.sExpr (.one (.call "g" [.name "x"]))]
    (by simp)

/-- Claim C8: a name use in a nested scope whose frame declares the name
`nonlocal` is resolved by skipping that frame and marking the name used
in the nearest enclosing frame holding it as a local — the use lands in
the outer frame's bookkeeping (so its definition is not reported
unused), the inner frame's bookkeeping is untouched, and no diagnostic
is emitted. -/
theorem C8_nonlocal_resolves_outward
    (st : UState) (v inner outer : String) (rest : List String)
    (hstack : st.stack = rest ++ [outer, inner])
    (hfn : st.fname = inner)
    (h₁ : varDefined st .glob v inner = false)
    (h₂ : varDefined st .nonloc v inner = true)
    (h₃ : varDefined st .glob v outer = false)
    (h₄ : varDefined st .nonloc v outer = false)
    (h₅ : varDefined st .loc v outer = true)
    (h₆ : isUsed st outer v = false)
    (hio : inner ≠ outer) :
    register_usage st v = markUsed st outer v
    ∧ isUsed (register_usage st v) outer v = true
    ∧ isUsed (register_usage st v) inner v = isUsed st inner v
    ∧ (register_usage st v).out = st.out := by
  have hrev : st.stack.reverse = inner :: outer :: rest.reverse := by
    simp [hstack]
  have hres : register_usage st v = markUsed st outer v := by
    unfold register_usage
    rw [hfn, h₁]
    simp only [Bool.false_and, if_neg (Bool.false_ne_true)]
    rw [hrev]
    unfold resolveStack
    rw [h₁, h₂]
    simp only [Bool.false_and, Bool.false_eq_true, if_false, if_pos rfl]
    unfold resolveStack
    rw [h₃, h₄, h₅, h₆]
    simp
  refine ⟨hres, ?_, ?_, ?_⟩
  · rw [hres]
    simp [isUsed, markUsed, dictLookup_insert_self]
  · rw [hres]
    simp [isUsed, markUsed, dictLookup_insert_ne _ outer inner _ (Ne.symm hio)]
  · rw [hres]
    rfl

/-- A concrete analyzer state for the C8 witness: inside `inner`
(declaring `x` nonlocal) nested in `outer` (holding `x` as a local). -/
def c8State : UState :=
  { vdef :=
      [("global", emptyScopeDef),
       ("outer", { emptyScopeDef with locals := [("x", "outer", 2)] }),
       ("inner", { emptyScopeDef with nonlocals := [("x", "inner", 4)] })]
    vused := [("global", []), ("outer", []), ("inner", [])]
    stack := ["global", "outer", "inner"]
    fname := "inner"
    out := [] }

/-- Witness for C8 at the concrete state `c8State`. -/
theorem C8_nonlocal_resolves_outward_witness :
    register_usage c8State "x" = markUsed c8State "outer" "x"
    ∧ isUsed (register_usage c8State "x") "outer" "x" = true
    ∧ isUsed (register_usage c8State "x") "inner" "x" = isUsed c8State "inner" "x"
    ∧ (register_usage c8State "x").out = c8State.out :=
  C8_nonlocal_resolves_outward c8State "x" "inner" "outer" ["global"]
    rfl rfl rfl rfl rfl rfl rfl rfl (by decide)

/-- Claim C10: the usage analyzer registers uses only for call arguments
that are directly `Name` nodes and for bare `Name` expressions; it does
not recurse into call arguments, so for `x = 1; print(f(x))` the only
use of `x` — nested inside the argument of the outer call — is never
registered and `x` is reported unused. -/
theorem C10_nested_use_missed :
    analyzeUsage
      [.assign (.name "x") (.one (.const (.int 1))) 1,
       .sExpr (.one (.call "print" [.call "f" [.name "x"]]))]
    = [.unused "x" "global" 1] := rfl

end MiniCompiler
